import Mathlib

/-!
Shallow embedding of the `gonhanh` Vietnamese IME core (the `fkey`
repository).  The engine reducer (`engine/mod.rs`), the validation rules
(`engine/validation.rs`), the shortcut table (`engine/shortcut.rs`) and the
persisted configuration (`config.rs`) are translated directly from the Rust
sources.  A few leaf modules of the crate (`engine/buffer.rs`,
`data/keys.rs`, `data/chars.rs`, the input-method descriptor module and
`engine/syllable.rs`) are not part of the source tree; those are modelled
from the design document, as indicated on each definition.
-/

namespace Gonhanh

/-! ## Key codes

Modelled from the spec: `data/keys.rs` is absent from the tree.  The spec
(§6) only requires a stable namespace of distinct codes for a–z, 0–9,
delete, return, tab, arrows, space and punctuation, together with the
classification predicates of §4.1; the concrete numbers below are an
arbitrary faithful assignment (letters 0–25 in alphabetical order, digits
26–35, controls and punctuation above 39). -/

namespace keys

def A : Nat := 0
def B : Nat := 1
def C : Nat := 2
def D : Nat := 3
def E : Nat := 4
def F : Nat := 5
def G : Nat := 6
def H : Nat := 7
def I : Nat := 8
def J : Nat := 9
def K : Nat := 10
def L : Nat := 11
def M : Nat := 12
def N : Nat := 13
def O : Nat := 14
def P : Nat := 15
def Q : Nat := 16
def R : Nat := 17
def S : Nat := 18
def T : Nat := 19
def U : Nat := 20
def V : Nat := 21
def W : Nat := 22
def X : Nat := 23
def Y : Nat := 24
def Z : Nat := 25
def N0 : Nat := 26
def N1 : Nat := 27
def N2 : Nat := 28
def N3 : Nat := 29
def N4 : Nat := 30
def N5 : Nat := 31
def N6 : Nat := 32
def N7 : Nat := 33
def N8 : Nat := 34
def N9 : Nat := 35
def SPACE : Nat := 40
def RETURN : Nat := 41
def TAB : Nat := 42
def DOT : Nat := 43
def COMMA : Nat := 44
def SEMICOLON : Nat := 45
def QUESTION : Nat := 46
def EXCLAIM : Nat := 47
def COLON : Nat := 48
def SLASH : Nat := 49
def DELETE : Nat := 51

/-- Modelled from the spec: letter class is a–z (§4.1). -/
def is_letter (k : Nat) : Bool := k ≤ Z

/-- Modelled from the spec: the vowel-letter subset is a, e, i, o, u, y. -/
def is_vowel (k : Nat) : Bool :=
  k == A || k == E || k == I || k == O || k == U || k == Y

/-- Modelled from the spec: consonant letters are the non-vowel letters. -/
def is_consonant (k : Nat) : Bool := is_letter k && !is_vowel k

/-- Modelled from the spec: digit class 0–9. -/
def is_number (k : Nat) : Bool := N0 ≤ k && k ≤ N9

/-- Modelled from the spec (§4.5): break keys are whitespace and
punctuation except delete. -/
def is_break (k : Nat) : Bool :=
  k == SPACE || k == RETURN || k == TAB || k == DOT || k == COMMA ||
  k == SEMICOLON || k == QUESTION || k == EXCLAIM || k == COLON || k == SLASH

end keys

/-! ## Diacritic value namespaces

Modelled from the spec: `data/chars.rs` constants.  Marks (§3): acute,
grave, hook, tilde, dot; the VNI digits 1–5 map to them in that order, so
the values 1–5 are used.  Tones (vowel modifiers): circumflex, breve,
horn. -/

namespace mark

def NONE : Nat := 0
def ACUTE : Nat := 1
def GRAVE : Nat := 2
def HOOK : Nat := 3
def TILDE : Nat := 4
def DOT : Nat := 5

end mark

namespace tone

def NONE : Nat := 0
def CIRCUMFLEX : Nat := 1
def BREVE : Nat := 2
def HORN : Nat := 3

end tone

/-! ## Buffer entries

Embeds `engine/buffer.rs`'s `Char` (the module is declared by
`engine/mod.rs` but absent from the tree; the record shape is the
BufferChar of spec §3).  Named `BChar` because `Char` is taken in Lean. -/

structure BChar where
  key : Nat
  caps : Bool
  mark : Nat
  tone : Nat
deriving Repr, DecidableEq

/-- `Char::new(key, caps)`: fresh entry with no diacritics. -/
def BChar.new (key : Nat) (caps : Bool) : BChar := ⟨key, caps, 0, 0⟩

/-- Modelled from the spec (§3): buffer capacity ≈ 32 (`MAX`). -/
def MAX : Nat := 32

/-- Modelled from the spec (§3): on overflow the buffer is cleared before
accepting new input. -/
def buf_push (b : List BChar) (c : BChar) : List BChar :=
  if b.length ≥ MAX then [c] else b ++ [c]

/-- Modelled from the spec (§4.3): buffer `find_vowels` — positions of the
vowel letters, in order. -/
def find_vowels (b : List BChar) : List Nat :=
  (List.range b.length).filter fun i =>
    match b.get? i with
    | some c => keys.is_vowel c.key
    | none => false

/-- Modelled from the spec (§4.2): the tone target is the vowel of the
given key that most recently appears, so the last matching position. -/
def find_vowel_by_key (b : List BChar) (k : Nat) : Option Nat :=
  ((List.range b.length).filter fun i =>
    match b.get? i with
    | some c => keys.is_vowel c.key && c.key == k
    | none => false).getLast?

/-! ## Composition table

Modelled from the spec: `data/chars.rs` is absent.  §4.5 specifies a
static composition table `(key, caps, tone, mark) → Unicode`; the table
below is the standard precomposed Vietnamese alphabet.  Consonant keys
other than `đ` compose to nothing (the rebuilder falls back to the plain
letter for them). -/

namespace chars

/-- Base letter for a vowel key with an optional vowel-modifier tone;
combinations that do not exist in Vietnamese give none. -/
def base_char (key tn : Nat) : Option Char :=
  if key == keys.A then
    if tn == tone.NONE then some 'a'
    else if tn == tone.CIRCUMFLEX then some 'â'
    else if tn == tone.BREVE then some 'ă'
    else none
  else if key == keys.E then
    if tn == tone.NONE then some 'e'
    else if tn == tone.CIRCUMFLEX then some 'ê'
    else none
  else if key == keys.O then
    if tn == tone.NONE then some 'o'
    else if tn == tone.CIRCUMFLEX then some 'ô'
    else if tn == tone.HORN then some 'ơ'
    else none
  else if key == keys.U then
    if tn == tone.NONE then some 'u'
    else if tn == tone.HORN then some 'ư'
    else none
  else if key == keys.I then
    if tn == tone.NONE then some 'i' else none
  else if key == keys.Y then
    if tn == tone.NONE then some 'y' else none
  else none

/-- Pitch-mark composition on a (possibly tone-modified) base vowel. -/
def apply_mark (c : Char) (mk : Nat) : Option Char :=
  if mk == mark.NONE then some c
  else
    let row : Option (Char × Char × Char × Char × Char) :=
      if c == 'a' then some ('á', 'à', 'ả', 'ã', 'ạ')
      else if c == 'â' then some ('ấ', 'ầ', 'ẩ', 'ẫ', 'ậ')
      else if c == 'ă' then some ('ắ', 'ằ', 'ẳ', 'ẵ', 'ặ')
      else if c == 'e' then some ('é', 'è', 'ẻ', 'ẽ', 'ẹ')
      else if c == 'ê' then some ('ế', 'ề', 'ể', 'ễ', 'ệ')
      else if c == 'i' then some ('í', 'ì', 'ỉ', 'ĩ', 'ị')
      else if c == 'o' then some ('ó', 'ò', 'ỏ', 'õ', 'ọ')
      else if c == 'ô' then some ('ố', 'ồ', 'ổ', 'ỗ', 'ộ')
      else if c == 'ơ' then some ('ớ', 'ờ', 'ở', 'ỡ', 'ợ')
      else if c == 'u' then some ('ú', 'ù', 'ủ', 'ũ', 'ụ')
      else if c == 'ư' then some ('ứ', 'ừ', 'ử', 'ữ', 'ự')
      else if c == 'y' then some ('ý', 'ỳ', 'ỷ', 'ỹ', 'ỵ')
      else none
    row.bind fun (ac, gr, ho, ti, dt) =>
      if mk == mark.ACUTE then some ac
      else if mk == mark.GRAVE then some gr
      else if mk == mark.HOOK then some ho
      else if mk == mark.TILDE then some ti
      else if mk == mark.DOT then some dt
      else none

/-- Lower-to-upper pairs for the composed Vietnamese alphabet (models the
upper-case half of the composition table and `char::to_uppercase` on the
characters the engine produces). -/
def upper_pairs : List (Char × Char) :=
  [('â', 'Â'), ('ă', 'Ă'), ('ê', 'Ê'), ('ô', 'Ô'), ('ơ', 'Ơ'), ('ư', 'Ư'),
   ('á', 'Á'), ('à', 'À'), ('ả', 'Ả'), ('ã', 'Ã'), ('ạ', 'Ạ'),
   ('ấ', 'Ấ'), ('ầ', 'Ầ'), ('ẩ', 'Ẩ'), ('ẫ', 'Ẫ'), ('ậ', 'Ậ'),
   ('ắ', 'Ắ'), ('ằ', 'Ằ'), ('ẳ', 'Ẳ'), ('ẵ', 'Ẵ'), ('ặ', 'Ặ'),
   ('é', 'É'), ('è', 'È'), ('ẻ', 'Ẻ'), ('ẽ', 'Ẽ'), ('ẹ', 'Ẹ'),
   ('ế', 'Ế'), ('ề', 'Ề'), ('ể', 'Ể'), ('ễ', 'Ễ'), ('ệ', 'Ệ'),
   ('í', 'Í'), ('ì', 'Ì'), ('ỉ', 'Ỉ'), ('ĩ', 'Ĩ'), ('ị', 'Ị'),
   ('ó', 'Ó'), ('ò', 'Ò'), ('ỏ', 'Ỏ'), ('õ', 'Õ'), ('ọ', 'Ọ'),
   ('ố', 'Ố'), ('ồ', 'Ồ'), ('ổ', 'Ổ'), ('ỗ', 'Ỗ'), ('ộ', 'Ộ'),
   ('ớ', 'Ớ'), ('ờ', 'Ờ'), ('ở', 'Ở'), ('ỡ', 'Ỡ'), ('ợ', 'Ợ'),
   ('ú', 'Ú'), ('ù', 'Ù'), ('ủ', 'Ủ'), ('ũ', 'Ũ'), ('ụ', 'Ụ'),
   ('ứ', 'Ứ'), ('ừ', 'Ừ'), ('ử', 'Ử'), ('ữ', 'Ữ'), ('ự', 'Ự'),
   ('ý', 'Ý'), ('ỳ', 'Ỳ'), ('ỷ', 'Ỷ'), ('ỹ', 'Ỹ'), ('ỵ', 'Ỵ'),
   ('đ', 'Đ')]

/-- Upper-case a character: ASCII letters shift by 32, composed
Vietnamese letters go through `upper_pairs`, everything else is itself
(models `char::to_uppercase` restricted to the engine's alphabet). -/
def vn_upper (c : Char) : Char :=
  if 'a' ≤ c && c ≤ 'z' then Char.ofNat (c.toNat - 32)
  else (((upper_pairs.find? fun p => p.1 == c).map Prod.snd).getD c)

/-- Lower-case a character (models `str::to_lowercase` on the engine's
alphabet). -/
def vn_lower (c : Char) : Char :=
  if 'A' ≤ c && c ≤ 'Z' then Char.ofNat (c.toNat + 32)
  else (((upper_pairs.find? fun p => p.2 == c).map Prod.fst).getD c)

/-- Is the character an upper-case letter of the engine's alphabet
(models `char::is_uppercase`; digits and punctuation are not). -/
def is_upper (c : Char) : Bool :=
  ('A' ≤ c && c ≤ 'Z') || upper_pairs.any fun p => p.2 == c

/-- `chars::get_d`: the stroked d. -/
def get_d (caps : Bool) : Char := if caps then 'Đ' else 'đ'

/-- `chars::to_char`: compose a buffer entry into its Unicode character;
none for keys with no composition (consonants, digits). -/
def to_char (key : Nat) (caps : Bool) (tn mk : Nat) : Option Char :=
  ((base_char key tn).bind fun c => apply_mark c mk).map
    fun c => if caps then vn_upper c else c

end chars

/-! ## Input-method descriptors

Modelled from the spec: the `input` module is absent.  §4.2 gives the
static trigger tables for Telex and VNI, and the rule that the tone target
is the most recent vowel in the buffer that accepts the tone. -/

inductive Method
  | telex
  | vni
deriving Repr, DecidableEq

/-- Last element of `vowels` that belongs to `accepted` (the "most
recently appearing" acceptable vowel of §4.2). -/
def last_accepting (vowels accepted : List Nat) : Option Nat :=
  (vowels.filter fun v => accepted.contains v).getLast?

/-- `is_mark`: Telex s f r x j, VNI 1–5 → acute grave hook tilde dot. -/
def Method.is_mark : Method → Nat → Option Nat
  | .telex, k =>
    if k == keys.S then some mark.ACUTE
    else if k == keys.F then some mark.GRAVE
    else if k == keys.R then some mark.HOOK
    else if k == keys.X then some mark.TILDE
    else if k == keys.J then some mark.DOT
    else none
  | .vni, k =>
    if k == keys.N1 then some mark.ACUTE
    else if k == keys.N2 then some mark.GRAVE
    else if k == keys.N3 then some mark.HOOK
    else if k == keys.N4 then some mark.TILDE
    else if k == keys.N5 then some mark.DOT
    else none

/-- `is_tone_for`: Telex doubling (`aa`/`ee`/`oo` → circumflex) and `w`
(breve on a, horn on o/u); VNI 6 → circumflex on a/e/o, 7 → horn on o/u,
8 → breve on a.  Returns the tone and the target vowel key. -/
def Method.is_tone_for : Method → Nat → List Nat → Option (Nat × Nat)
  | .telex, k, vowels =>
    if k == keys.A && vowels.contains keys.A then some (tone.CIRCUMFLEX, keys.A)
    else if k == keys.E && vowels.contains keys.E then some (tone.CIRCUMFLEX, keys.E)
    else if k == keys.O && vowels.contains keys.O then some (tone.CIRCUMFLEX, keys.O)
    else if k == keys.W then
      match last_accepting vowels [keys.A, keys.O, keys.U] with
      | some v => some (if v == keys.A then tone.BREVE else tone.HORN, v)
      | none => none
    else none
  | .vni, k, vowels =>
    if k == keys.N6 then
      (last_accepting vowels [keys.A, keys.E, keys.O]).map fun v => (tone.CIRCUMFLEX, v)
    else if k == keys.N7 then
      (last_accepting vowels [keys.O, keys.U]).map fun v => (tone.HORN, v)
    else if k == keys.N8 then
      (last_accepting vowels [keys.A]).map fun v => (tone.BREVE, v)
    else none

/-- `is_d`: Telex `d` after a prior `d`; VNI `9` after a prior `d`. -/
def Method.is_d : Method → Nat → Option Nat → Bool
  | .telex, k, prev => k == keys.D && prev == some keys.D
  | .vni, k, prev => k == keys.N9 && prev == some keys.D

/-- `is_remove`: Telex `z`, VNI `0`. -/
def Method.is_remove : Method → Nat → Bool
  | .telex, k => k == keys.Z
  | .vni, k => k == keys.N0

/-- `input::get`: descriptor for a method id (1 = VNI, otherwise Telex). -/
def input_get (m : Nat) : Method := if m == 1 then .vni else .telex

/-! ## Engine (embeds `src/core/src/engine/mod.rs`) -/

/-- `key_to_char` of `engine/mod.rs`: letters honour caps, digits do not,
other keys give none.  Uses the alphabetical/decimal layout of the key
namespace. -/
def key_to_char (key : Nat) (caps : Bool) : Option Char :=
  if key ≤ keys.Z then
    some (if caps then Char.ofNat ('A'.toNat + key) else Char.ofNat ('a'.toNat + key))
  else if keys.N0 ≤ key && key ≤ keys.N9 then
    some (Char.ofNat ('0'.toNat + (key - keys.N0)))
  else none

/-- The `Result` record of `engine/mod.rs` (action 0 = None/passthrough,
1 = Send, 2 = Restore); the fixed `chars` array together with `count` is
modelled as a list of at most `MAX` characters. -/
structure EResult where
  action : Nat
  backspace : Nat
  chars : List Char
deriving Repr, DecidableEq

/-- `Result::none()`. -/
def EResult.nores : EResult := ⟨0, 0, []⟩

/-- `Result::send(backspace, chars)`; entries past `MAX` are dropped. -/
def EResult.send (backspace : Nat) (cs : List Char) : EResult :=
  ⟨1, backspace, cs.take MAX⟩

/-- Append one character to a result's payload when there is room
(the `result.count < MAX` pushes of the revert handlers). -/
def EResult.append_char (r : EResult) (oc : Option Char) : EResult :=
  match oc with
  | none => r
  | some ch => if r.chars.length < MAX then { r with chars := r.chars ++ [ch] } else r

/-- The `Engine` struct of `engine/mod.rs`. -/
structure Engine where
  buf : List BChar
  method : Nat
  enabled : Bool
  modern : Bool
  last_transform : Option (Nat × Nat × Nat)
deriving Repr, DecidableEq

/-- `Engine::new()`. -/
def Engine.new : Engine :=
  { buf := [], method := 0, enabled := true, modern := true, last_transform := none }

/-- `Engine::set_method`. -/
def Engine.set_method (e : Engine) (m : Nat) : Engine := { e with method := m }

/-- `Engine::set_modern`. -/
def Engine.set_modern (e : Engine) (m : Bool) : Engine := { e with modern := m }

/-- `Engine::set_enabled`: disabling clears the buffer. -/
def Engine.set_enabled (e : Engine) (en : Bool) : Engine :=
  if en then { e with enabled := en } else { e with enabled := en, buf := [] }

/-- `Engine::has_final_consonant`: a consonant strictly after the last
vowel position. -/
def Engine.has_final_consonant (e : Engine) (last_vowel_pos : Nat) : Bool :=
  (e.buf.drop (last_vowel_pos + 1)).any fun c => keys.is_consonant c.key

/-- `Engine::is_glide_vowel_pair`: oa, oe, uy, ua, ue. -/
def Engine.is_glide_vowel_pair (_e : Engine) (v1 v2 : Nat) : Bool :=
  (v1 == keys.O && v2 == keys.A) || (v1 == keys.O && v2 == keys.E) ||
  (v1 == keys.U && v2 == keys.Y) || (v1 == keys.U && v2 == keys.A) ||
  (v1 == keys.U && v2 == keys.E)

/-- `Engine::rebuild_from`: walk the buffer from `start`, composing each
entry (falling back to the plain letter), with one backspace per entry
walked. -/
def Engine.rebuild_from (e : Engine) (start : Nat) : EResult :=
  let entries := e.buf.drop start
  let output := entries.filterMap fun c =>
    match chars.to_char c.key c.caps c.tone c.mark with
    | some ch => some ch
    | none => key_to_char c.key c.caps
  if output = [] then EResult.nores else EResult.send entries.length output

/-- `Engine::find_mark_pos`: choose the vowel position that receives a
new mark (the placement rules of §4.4 as implemented). -/
def Engine.find_mark_pos (e : Engine) (vowels : List Nat) : Nat :=
  match vowels with
  | [] => 0
  | [v] => v
  | v0 :: v1 :: rest =>
    let last_vowel_pos := (vowels.getLast?).getD 0
    let has_final := e.has_final_consonant last_vowel_pos
    let info := vowels.filterMap fun i =>
      (e.buf.get? i).map fun c => (i, c.key, decide (c.tone > 0))
    let ks := info.map fun p => p.2.1
    if rest = [] then
      let k0 := ks.getD 0 99
      let k1 := ks.getD 1 99
      let t0 := ((info.get? 0).map fun p => p.2.2).getD false
      let t1 := ((info.get? 1).map fun p => p.2.2).getD false
      if k0 == keys.U && k1 == keys.O then v1
      else if k0 == keys.I && k1 == keys.E then v1
      else if t0 && !t1 then v0
      else if t1 then v1
      else if has_final then v1
      else if e.is_glide_vowel_pair k0 k1 then (if e.modern then v1 else v0)
      else v0
    else
      let n := vowels.length
      if n == 3 && ks.getD 0 99 == keys.U && ks.getD 1 99 == keys.O then v1
      else
        match (List.range ks.length).find? fun idx =>
            (ks.getD idx 99 == keys.E || ks.getD idx 99 == keys.A) &&
            decide (0 < idx) && decide (idx < n - 1) with
        | some idx => vowels.getD idx 0
        | none =>
          match (List.range info.length).find? fun idx =>
              (((info.get? idx).map fun p => p.2.2).getD false) && decide (0 < idx) with
          | some idx => (((info.get? idx).map fun p => p.1).getD 0)
          | none =>
            match info.find? fun p => p.2.2 with
            | some p => p.1
            | none => vowels.getD (n / 2) 0

/-- `Engine::handle_d`: drop the triggering `d` from the buffer and send
`đ`/`Đ` over one backspace. -/
def Engine.handle_d (e : Engine) : Engine × EResult :=
  let caps := ((e.buf.getLast?).map BChar.caps).getD false
  ({ e with buf := e.buf.dropLast }, EResult.send 1 [chars.get_d caps])

/-- `Engine::handle_tone_with_key`: set the tone on the target vowel,
record the transform, rebuild from there. -/
def Engine.handle_tone_with_key (e : Engine) (key tn target_key : Nat) :
    Engine × EResult :=
  match find_vowel_by_key e.buf target_key with
  | some pos =>
    match e.buf.get? pos with
    | some c =>
      let e' := { e with buf := e.buf.set pos { c with tone := tn },
                         last_transform := some (key, 2, tn) }
      (e', e'.rebuild_from pos)
    | none => (e, EResult.nores)
  | none => (e, EResult.nores)

/-- Loop of `Engine::revert_tone` over the reversed vowel positions. -/
def Engine.revert_tone_loop (e : Engine) (key : Nat) (caps : Bool) :
    List Nat → Engine × EResult
  | [] => (e, EResult.nores)
  | i :: rest =>
    match e.buf.get? i with
    | none => e.revert_tone_loop key caps rest
    | some c =>
      if c.tone > 0 then
        let e' := { e with buf := e.buf.set i { c with tone := 0 } }
        (e', (e'.rebuild_from i).append_char (key_to_char key caps))
      else e.revert_tone_loop key caps rest

/-- `Engine::revert_tone`: clear the memo, strip the most recent tone and
append the literal trigger character to the output. -/
def Engine.revert_tone (e : Engine) (key : Nat) (caps : Bool) : Engine × EResult :=
  let e0 := { e with last_transform := none }
  e0.revert_tone_loop key caps (find_vowels e0.buf).reverse

/-- Loop of `Engine::revert_mark` over the reversed vowel positions. -/
def Engine.revert_mark_loop (e : Engine) (key : Nat) (caps : Bool) :
    List Nat → Engine × EResult
  | [] => (e, EResult.nores)
  | i :: rest =>
    match e.buf.get? i with
    | none => e.revert_mark_loop key caps rest
    | some c =>
      if c.mark > 0 then
        let e' := { e with buf := e.buf.set i { c with mark := 0 } }
        (e', (e'.rebuild_from i).append_char (key_to_char key caps))
      else e.revert_mark_loop key caps rest

/-- `Engine::revert_mark`: clear the memo, strip the most recent mark and
append the literal trigger character to the output. -/
def Engine.revert_mark (e : Engine) (key : Nat) (caps : Bool) : Engine × EResult :=
  let e0 := { e with last_transform := none }
  e0.revert_mark_loop key caps (find_vowels e0.buf).reverse

/-- `Engine::handle_mark_with_key`: place the mark at `find_mark_pos`,
record the transform, rebuild from there; no vowel → no effect. -/
def Engine.handle_mark_with_key (e : Engine) (key mk : Nat) : Engine × EResult :=
  let vowels := find_vowels e.buf
  if vowels = [] then (e, EResult.nores)
  else
    let pos := e.find_mark_pos vowels
    match e.buf.get? pos with
    | some c =>
      let e' := { e with buf := e.buf.set pos { c with mark := mk },
                         last_transform := some (key, 1, mk) }
      (e', e'.rebuild_from pos)
    | none => (e, EResult.nores)

/-- Loop of `Engine::handle_remove` over the reversed vowel positions:
per vowel, clear its mark if it has one, else its tone if it has one,
else continue towards the front. -/
def Engine.handle_remove_loop (e : Engine) : List Nat → Engine × EResult
  | [] => (e, EResult.nores)
  | i :: rest =>
    match e.buf.get? i with
    | none => e.handle_remove_loop rest
    | some c =>
      if c.mark > 0 then
        let e' := { e with buf := e.buf.set i { c with mark := 0 } }
        (e', e'.rebuild_from i)
      else if c.tone > 0 then
        let e' := { e with buf := e.buf.set i { c with tone := 0 } }
        (e', e'.rebuild_from i)
      else e.handle_remove_loop rest

/-- `Engine::handle_remove`. -/
def Engine.handle_remove (e : Engine) : Engine × EResult :=
  let vowels := find_vowels e.buf
  if vowels = [] then (e, EResult.nores)
  else e.handle_remove_loop vowels.reverse

/-- `Engine::process`: the letter/digit reducer (đ, then tone, then mark,
then remove, then plain key). -/
def Engine.process (e : Engine) (key : Nat) (caps : Bool) : Engine × EResult :=
  let m := input_get e.method
  let prev_key := (e.buf.getLast?).map BChar.key
  if m.is_d key prev_key then
    Engine.handle_d { e with last_transform := none }
  else
    let vowel_keys := (e.buf.filter fun c => keys.is_vowel c.key).map BChar.key
    match m.is_tone_for key vowel_keys with
    | some (tn, target_key) =>
      match e.last_transform with
      | some (last_key, 2, _) =>
        if last_key == key then e.revert_tone key caps
        else e.handle_tone_with_key key tn target_key
      | _ => e.handle_tone_with_key key tn target_key
    | none =>
      match m.is_mark key with
      | some mrk =>
        match e.last_transform with
        | some (last_key, 1, _) =>
          if last_key == key then e.revert_mark key caps
          else e.handle_mark_with_key key mrk
        | _ => e.handle_mark_with_key key mrk
      | none =>
        if m.is_remove key then
          Engine.handle_remove { e with last_transform := none }
        else if keys.is_letter key then
          ({ e with last_transform := none, buf := buf_push e.buf (BChar.new key caps) },
           EResult.nores)
        else
          ({ e with last_transform := none, buf := [] }, EResult.nores)

/-- `Engine::on_key`: the per-keystroke entry point. -/
def Engine.on_key (e : Engine) (key : Nat) (caps ctrl : Bool) : Engine × EResult :=
  if !e.enabled || ctrl then ({ e with buf := [] }, EResult.nores)
  else if keys.is_break key then ({ e with buf := [] }, EResult.nores)
  else if key == keys.DELETE then ({ e with buf := e.buf.dropLast }, EResult.nores)
  else e.process key caps

/-- `Engine::clear`. -/
def Engine.clear (e : Engine) : Engine := { e with buf := [] }

/-- One step of the host screen model: a Send deletes `backspace`
characters and appends the payload, a passthrough letter appears
literally (the `type_word` harness of `tests/basic_test.rs`, which is the
host contract of spec §6). -/
def screen_step (st : Engine × List Char) (key : Nat) (caps : Bool) :
    Engine × List Char :=
  let (e, screen) := st
  let (e', r) := e.on_key key caps false
  let screen' :=
    if r.action == 1 then (screen.take (screen.length - r.backspace)) ++ r.chars
    else if keys.is_letter key then screen ++ (key_to_char key caps).toList
    else screen
  (e', screen')

/-- Type a key sequence into a fresh-screen host. -/
def type_word (e : Engine) (inp : List (Nat × Bool)) : Engine × List Char :=
  inp.foldl (fun st p => screen_step st p.1 p.2) (e, [])

/-! ## Syllable parser

Modelled from the spec: `engine/syllable.rs` is absent.  §4.3: the
initial is the longest prefix of consonant letters (≤ 3; `qu` is also a
recognised initial, so a lone `q` absorbs a following `u`); if the
initial is `qu` or ends in `gi`, the next vowel acts as the glide; the
maximal vowel run after that is the nucleus; the following consonant run
is the final — anything left over is outside the structure and is caught
by the all-characters-parsed rule. -/

structure Syllable where
  initial : List Nat
  glide : Option Nat
  vowel : List Nat
  final_c : List Nat
deriving Repr, DecidableEq

/-- `Syllable::is_empty`: the nucleus is empty. -/
def Syllable.is_empty (s : Syllable) : Bool := s.vowel.isEmpty

/-- Modelled from the spec (§4.3): segment buffer keys into
initial/glide/vowel/final index vectors. -/
def parse (ks : List Nat) : Syllable :=
  let ini0 := min ((ks.takeWhile keys.is_consonant).length) 3
  let ini :=
    if ini0 == 1 && ks.get? 0 == some keys.Q && ks.get? 1 == some keys.U then 2
    else ini0
  let qu_or_gi :=
    decide (2 ≤ ini) &&
    ((ks.get? (ini - 2) == some keys.Q && ks.get? (ini - 1) == some keys.U) ||
     (ks.get? (ini - 2) == some keys.G && ks.get? (ini - 1) == some keys.I))
  let next_is_vowel :=
    match ks.get? ini with
    | some k => keys.is_vowel k
    | none => false
  let glide : Option Nat := if qu_or_gi && next_is_vowel then some ini else none
  let p := if glide.isSome then ini + 1 else ini
  let nvow := ((ks.drop p).takeWhile keys.is_vowel).length
  let q := p + nvow
  let nfin := ((ks.drop q).takeWhile keys.is_consonant).length
  { initial := List.range ini,
    glide := glide,
    vowel := (List.range nvow).map (· + p),
    final_c := (List.range nfin).map (· + q) }

/-! ## Validation (embeds `src/core/src/engine/validation.rs`) -/

inductive ValidationResult
  | Valid
  | InvalidInitial
  | InvalidFinal
  | InvalidSpelling
  | NoVowel
deriving Repr, DecidableEq

/-- `ValidationResult::is_valid`. -/
def ValidationResult.is_valid : ValidationResult → Bool
  | .Valid => true
  | _ => false

/-- `VALID_INITIALS_1`. -/
def VALID_INITIALS_1 : List Nat :=
  [keys.B, keys.C, keys.D, keys.G, keys.H, keys.K, keys.L, keys.M,
   keys.N, keys.P, keys.Q, keys.R, keys.S, keys.T, keys.V, keys.X]

/-- `VALID_INITIALS_2`. -/
def VALID_INITIALS_2 : List (Nat × Nat) :=
  [(keys.C, keys.H), (keys.G, keys.H), (keys.G, keys.I), (keys.K, keys.H),
   (keys.N, keys.G), (keys.N, keys.H), (keys.P, keys.H), (keys.Q, keys.U),
   (keys.T, keys.H), (keys.T, keys.R)]

/-- `VALID_FINALS_1`. -/
def VALID_FINALS_1 : List Nat :=
  [keys.C, keys.M, keys.N, keys.P, keys.T, keys.I, keys.Y, keys.O, keys.U]

/-- `VALID_FINALS_2`. -/
def VALID_FINALS_2 : List (Nat × Nat) :=
  [(keys.C, keys.H), (keys.N, keys.G), (keys.N, keys.H)]

/-- `SPELLING_RULES`: (initial cluster, forbidden first vowels). -/
def SPELLING_RULES : List (List Nat × List Nat) :=
  [([keys.C], [keys.E, keys.I, keys.Y]),
   ([keys.K], [keys.A, keys.O, keys.U]),
   ([keys.G], [keys.E]),
   ([keys.N, keys.G], [keys.E, keys.I]),
   ([keys.G, keys.H], [keys.A, keys.O, keys.U]),
   ([keys.N, keys.G, keys.H], [keys.A, keys.O, keys.U])]

/-- Index the buffer keys by syllable indices (the `keys[i]` reads of the
rules; out of range gives 99, which is no key). -/
def keys_at (ks : List Nat) (idx : List Nat) : List Nat :=
  idx.map fun i => ks.getD i 99

/-- `rule_has_vowel`. -/
def rule_has_vowel (_ks : List Nat) (s : Syllable) : Option ValidationResult :=
  if s.is_empty then some .NoVowel else none

/-- `rule_valid_initial`. -/
def rule_valid_initial (ks : List Nat) (s : Syllable) : Option ValidationResult :=
  if s.initial.isEmpty then none
  else
    let ini := keys_at ks s.initial
    let ok :=
      match ini with
      | [a] => VALID_INITIALS_1.contains a
      | [a, b] => VALID_INITIALS_2.contains (a, b)
      | [a, b, c] => a == keys.N && b == keys.G && c == keys.H
      | _ => false
    if ok then none else some .InvalidInitial

/-- `rule_all_chars_parsed`. -/
def rule_all_chars_parsed (ks : List Nat) (s : Syllable) : Option ValidationResult :=
  let parsed := s.initial.length + (if s.glide.isSome then 1 else 0) +
    s.vowel.length + s.final_c.length
  if parsed ≠ ks.length then some .InvalidFinal else none

/-- `rule_spelling`: the c/k, g/gh, ng/ngh constraints against the glide
or first nucleus vowel. -/
def rule_spelling (ks : List Nat) (s : Syllable) : Option ValidationResult :=
  if s.initial.isEmpty || s.vowel.isEmpty then none
  else
    let ini := keys_at ks s.initial
    let first_vowel := ks.getD ((s.glide).getD (s.vowel.getD 0 0)) 99
    if SPELLING_RULES.any fun r => ini == r.1 && r.2.contains first_vowel then
      some .InvalidSpelling
    else none

/-- `rule_valid_final`. -/
def rule_valid_final (ks : List Nat) (s : Syllable) : Option ValidationResult :=
  if s.final_c.isEmpty then none
  else
    let fin := keys_at ks s.final_c
    let ok :=
      match fin with
      | [a] => VALID_FINALS_1.contains a
      | [a, b] => VALID_FINALS_2.contains (a, b)
      | _ => false
    if ok then none else some .InvalidFinal

/-- `validate`: run the five rules in order; the first failure
classifies the word. -/
def validate (buffer_keys : List Nat) : ValidationResult :=
  if buffer_keys = [] then .NoVowel
  else
    let s := parse buffer_keys
    match rule_has_vowel buffer_keys s with
    | some r => r
    | none =>
      match rule_valid_initial buffer_keys s with
      | some r => r
      | none =>
        match rule_all_chars_parsed buffer_keys s with
        | some r => r
        | none =>
          match rule_spelling buffer_keys s with
          | some r => r
          | none =>
            match rule_valid_final buffer_keys s with
            | some r => r
            | none => .Valid

/-- `is_valid`. -/
def is_valid (buffer_keys : List Nat) : Bool := (validate buffer_keys).is_valid

/-! ## Shortcut table (embeds `src/core/src/engine/shortcut.rs`)

Rust `String`s are modelled as `List Char`; the `HashMap` is modelled as
an association list with unique keys (insert replaces in place, the key
iteration used by `rebuild_sorted_triggers` takes them in list order
before sorting, which refines the map's arbitrary order). -/

inductive TriggerCondition
  | Immediate
  | OnWordBoundary
deriving Repr, DecidableEq

inductive CaseMode
  | Exact
  | MatchCase
deriving Repr, DecidableEq

/-- Lower-case a string. -/
def lower_str (s : List Char) : List Char := s.map chars.vn_lower

/-- Upper-case a string (models `str::to_uppercase` on the table's
alphabet). -/
def upper_str (s : List Char) : List Char := s.map chars.vn_upper

structure Shortcut where
  trigger : List Char
  replacement : List Char
  condition : TriggerCondition
  case_mode : CaseMode
  enabled : Bool
deriving Repr, DecidableEq

/-- `Shortcut::new`: word-boundary, case-matching, enabled; the trigger
is stored lower-cased. -/
def Shortcut.new (trigger replacement : List Char) : Shortcut :=
  ⟨lower_str trigger, replacement, .OnWordBoundary, .MatchCase, true⟩

/-- `Shortcut::immediate`: immediate, exact case, enabled. -/
def Shortcut.immediate (trigger replacement : List Char) : Shortcut :=
  ⟨lower_str trigger, replacement, .Immediate, .Exact, true⟩

structure ShortcutMatch where
  backspace_count : Nat
  output : List Char
  include_trigger_key : Bool
deriving Repr, DecidableEq

/-- Association-list read of the shortcuts map. -/
def map_get (m : List (List Char × Shortcut)) (k : List Char) : Option Shortcut :=
  (m.find? fun p => p.1 == k).map Prod.snd

/-- Association-list insert-or-replace (the `HashMap::insert`). -/
def map_insert (m : List (List Char × Shortcut)) (k : List Char) (v : Shortcut) :
    List (List Char × Shortcut) :=
  if m.any fun p => p.1 == k then
    m.map fun p => if p.1 == k then (k, v) else p
  else m ++ [(k, v)]

/-- Association-list delete (the `HashMap::remove`). -/
def map_remove (m : List (List Char × Shortcut)) (k : List Char) :
    List (List Char × Shortcut) :=
  m.filter fun p => !(p.1 == k)

/-- Insert into a list sorted by non-increasing length. -/
def insert_desc (x : List Char) : List (List Char) → List (List Char)
  | [] => [x]
  | y :: ys => if x.length ≤ y.length then y :: insert_desc x ys else x :: y :: ys

/-- Sort triggers by length, longest first (the
`sort_by_key(Reverse(len))`). -/
def sort_desc : List (List Char) → List (List Char)
  | [] => []
  | x :: xs => insert_desc x (sort_desc xs)

structure ShortcutTable where
  shortcuts : List (List Char × Shortcut)
  sorted_triggers : List (List Char)
deriving Repr, DecidableEq

/-- `ShortcutTable::new`. -/
def ShortcutTable.new : ShortcutTable := ⟨[], []⟩

/-- `ShortcutTable::rebuild_sorted_triggers`. -/
def ShortcutTable.rebuild_sorted_triggers (t : ShortcutTable) : ShortcutTable :=
  { t with sorted_triggers := sort_desc (t.shortcuts.map Prod.fst) }

/-- `ShortcutTable::add`: keyed by the shortcut's trigger, then rebuild. -/
def ShortcutTable.add (t : ShortcutTable) (s : Shortcut) : ShortcutTable :=
  ShortcutTable.rebuild_sorted_triggers
    { t with shortcuts := map_insert t.shortcuts s.trigger s }

/-- `ShortcutTable::remove`: drop the lower-cased trigger; rebuild only
when something was removed. -/
def ShortcutTable.remove (t : ShortcutTable) (trigger : List Char) : ShortcutTable :=
  if (map_get t.shortcuts (lower_str trigger)).isSome then
    ShortcutTable.rebuild_sorted_triggers
      { t with shortcuts := map_remove t.shortcuts (lower_str trigger) }
  else t

/-- `ShortcutTable::clear`. -/
def ShortcutTable.clear (_t : ShortcutTable) : ShortcutTable := ⟨[], []⟩

/-- `ShortcutTable::with_defaults`. -/
def ShortcutTable.with_defaults : ShortcutTable :=
  (((((ShortcutTable.new.add
    (Shortcut.new "vn".toList "Việt Nam".toList)).add
    (Shortcut.new "hcm".toList "Hồ Chí Minh".toList)).add
    (Shortcut.new "hn".toList "Hà Nội".toList)).add
    (Shortcut.new "dc".toList "được".toList)).add
    (Shortcut.new "ko".toList "không".toList))

/-- `ShortcutTable::lookup`: longest-match-first scan for an enabled
shortcut whose trigger equals the lower-cased buffer. -/
def ShortcutTable.lookup (t : ShortcutTable) (buffer : List Char) :
    Option (List Char × Shortcut) :=
  let buffer_lower := lower_str buffer
  t.sorted_triggers.findSome? fun trigger =>
    if buffer_lower == trigger then
      match map_get t.shortcuts trigger with
      | some s => if s.enabled then some (trigger, s) else none
      | none => none
    else none

/-- `ShortcutTable::apply_case`. -/
def ShortcutTable.apply_case (_t : ShortcutTable) (trigger replacement : List Char)
    (mode : CaseMode) : List Char :=
  match mode with
  | .Exact => replacement
  | .MatchCase =>
    if trigger.all chars.is_upper then upper_str replacement
    else if ((trigger.head?).map chars.is_upper).getD false then
      match replacement with
      | [] => []
      | c :: cs => chars.vn_upper c :: cs
    else replacement

/-- `ShortcutTable::try_match`. -/
def ShortcutTable.try_match (t : ShortcutTable) (buffer : List Char)
    (key_char : Option Char) (is_word_boundary : Bool) : Option ShortcutMatch :=
  match t.lookup buffer with
  | none => none
  | some (trigger, s) =>
    match s.condition with
    | .Immediate =>
      some ⟨trigger.length, t.apply_case buffer s.replacement s.case_mode, false⟩
    | .OnWordBoundary =>
      if is_word_boundary then
        some ⟨trigger.length,
          t.apply_case buffer s.replacement s.case_mode ++ key_char.toList, true⟩
      else none

/-! ## Persisted configuration (embeds `src/core/src/config.rs`)

`Config` derives serde `Deserialize` without per-field defaults, so a
TOML document missing either field fails to deserialize as a whole; the
file layer is modelled by an abstract document carrying the two known
keys when present (unknown keys are ignored by serde and so never reach
the record), with `none` for a missing or unreadable/corrupt file. -/

structure Config where
  enabled : Bool
  mode : Nat
deriving Repr, DecidableEq

/-- `Config::default()`: enabled, Telex. -/
def Config.default : Config := { enabled := true, mode := 0 }

/-- An on-disk configuration document: each schema key is present or
absent (unknown keys dropped).  The `mode` key carries the integer as
written in the file, which may exceed the `u8` range of the field. -/
structure ConfigDoc where
  enabled : Option Bool
  mode : Option Nat
deriving Repr, DecidableEq

/-- serde deserialization of `Config`: both fields are required, and the
`mode` integer must fit the `u8` field — a value of 256 or more is a
deserialization error. -/
def parse_config (d : ConfigDoc) : Option Config :=
  match d.enabled, d.mode with
  | some e, some m =>
    if m < 256 then some { enabled := e, mode := m } else none
  | _, _ => none

/-- `Config::load()`: a readable file that deserializes wins, anything
else falls back to the defaults. -/
def Config.load (file : Option ConfigDoc) : Config :=
  match file with
  | some d => (parse_config d).getD Config.default
  | none => Config.default

/-! ## Claims -/

/-- C1 (counterexample): with the non-empty buffer `[a]`, pressing Delete
returns a passthrough (action 0), not a Send reflecting the remaining
buffer — the delete branch of `on_key` only pops. -/
theorem C1_counterexample :
    (({ Engine.new with buf := [BChar.new keys.A false] } : Engine).on_key
        keys.DELETE false false).2.action = 0 ∧
    ([BChar.new keys.A false] : List BChar) ≠ [] := by
  constructor
  · rfl
  · decide

/-- C1 (amended): for every enabled engine, pressing the Delete key pops
the last buffer entry and returns None; no rebuild is emitted and no
word history is consulted (the engine has none). -/
theorem C1_delete_pops_and_returns_none (e : Engine) (caps : Bool)
    (he : e.enabled = true) :
    e.on_key keys.DELETE caps false =
      ({ e with buf := e.buf.dropLast }, EResult.nores) := by
  unfold Engine.on_key
  rw [he]
  rfl

/-- C1 (witness): the amended statement at the one-entry buffer `[c]`. -/
theorem C1_delete_witness :
    (({ Engine.new with buf := [BChar.new keys.C false] } : Engine).on_key
        keys.DELETE false false) =
      (Engine.new, EResult.nores) := by
  have h := C1_delete_pops_and_returns_none
    { Engine.new with buf := [BChar.new keys.C false] } false rfl
  simpa using h

/-- C2 (counterexample): with the buffer holding `v`,`n` — which the
default shortcut table expands on a word boundary — pressing Space
returns None; the engine never consults the shortcut table. -/
theorem C2_counterexample :
    (({ Engine.new with buf := [BChar.new keys.V false, BChar.new keys.N false] } :
        Engine).on_key keys.SPACE false false).2 = EResult.nores ∧
    (ShortcutTable.with_defaults.try_match ['v', 'n'] (some ' ') true).isSome =
      true := by
  constructor
  · rfl
  · decide

/-- C2 (amended): for every enabled engine and every break key, `on_key`
clears the buffer and returns None unconditionally; shortcut expansion is
not attempted. -/
theorem C2_break_clears_and_returns_none (e : Engine) (k : Nat) (caps : Bool)
    (he : e.enabled = true) (hk : keys.is_break k = true) :
    e.on_key k caps false = ({ e with buf := [] }, EResult.nores) := by
  unfold Engine.on_key
  rw [he, hk]
  rfl

/-- C2 (witness): the amended statement at Space on a one-letter buffer. -/
theorem C2_break_witness :
    (({ Engine.new with buf := [BChar.new keys.V false] } : Engine).on_key
        keys.SPACE false false) = (Engine.new, EResult.nores) := by
  have h := C2_break_clears_and_returns_none
    { Engine.new with buf := [BChar.new keys.V false] } keys.SPACE false rfl (by decide)
  simpa using h

/-- C8 (counterexample): a document that carries `enabled = false` but
lacks `mode` does not keep the present key while defaulting the missing
one — deserialization fails as a whole and `load` returns the full
defaults, so `enabled` comes back `true`. -/
theorem C8_counterexample :
    Config.load (some { enabled := some false, mode := none }) ≠
      { enabled := false, mode := 0 } ∧
    Config.load (some { enabled := some false, mode := none }) = Config.default ∧
    Config.default.enabled = true := by
  refine ⟨?_, rfl, rfl⟩
  decide

/-- C8 (amended): a missing or corrupt file loads as the default
configuration `{enabled := true, mode := 0 (Telex)}`; the schema has only
those two keys, and a file missing either key fails to deserialize as a
whole, also yielding the full defaults (its present keys are discarded);
a file carrying both keys loads verbatim when its mode value fits the u8
field, and also falls back to the full defaults when it does not. -/
theorem C8_load_defaults :
    Config.load none = Config.default ∧
    (∀ d : ConfigDoc, d.enabled = none ∨ d.mode = none →
      Config.load (some d) = Config.default) ∧
    (∀ (e : Bool) (m : Nat), m < 256 →
      Config.load (some { enabled := some e, mode := some m }) =
        { enabled := e, mode := m }) ∧
    (∀ (e : Bool) (m : Nat), 256 ≤ m →
      Config.load (some { enabled := some e, mode := some m }) =
        Config.default) ∧
    Config.default = { enabled := true, mode := 0 } := by
  refine ⟨rfl, ?_, ?_, ?_, rfl⟩
  · intro d h
    obtain ⟨de, dm⟩ := d
    rcases h with h | h
    · cases h
      rfl
    · cases h
      cases de <;> rfl
  · intro e m hm
    unfold Config.load parse_config
    dsimp only
    rw [if_pos hm]
    rfl
  · intro e m hm
    unfold Config.load parse_config
    dsimp only
    rw [if_neg (by omega)]
    rfl

/-- C8 (witness): the amended statement at a document missing the
`enabled` key, at one carrying both keys in range, and at one whose mode
overflows the u8 field. -/
theorem C8_load_witness :
    Config.load (some { enabled := none, mode := some 1 }) = Config.default ∧
    Config.load (some { enabled := some false, mode := some 1 }) =
      { enabled := false, mode := 1 } ∧
    Config.load (some { enabled := some false, mode := some 300 }) =
      Config.default :=
  ⟨C8_load_defaults.2.1 { enabled := none, mode := some 1 } (Or.inl rfl),
   C8_load_defaults.2.2.1 false 1 (by decide),
   C8_load_defaults.2.2.2.1 false 300 (by decide)⟩

/-- The remove loop passes over vowels that carry no diacritic. -/
theorem handle_remove_loop_skip (e : Engine) (L rest : List Nat)
    (h : ∀ i ∈ L, ∀ c : BChar, e.buf.get? i = some c → c.mark = 0 ∧ c.tone = 0) :
    e.handle_remove_loop (L ++ rest) = e.handle_remove_loop rest := by
  induction L with
  | nil => rfl
  | cons i L ih =>
    have hi := h i (List.mem_cons_self i L)
    have hL : ∀ i ∈ L, ∀ c : BChar, e.buf.get? i = some c → c.mark = 0 ∧ c.tone = 0 :=
      fun j hj => h j (List.mem_cons_of_mem i hj)
    rw [List.cons_append]
    cases hg : e.buf.get? i with
    | none =>
      simp only [Engine.handle_remove_loop, hg]
      exact ih hL
    | some c =>
      obtain ⟨h1, h2⟩ := hi c hg
      simp only [Engine.handle_remove_loop, hg, h1, h2, gt_iff_lt,
        lt_self_iff_false, if_false]
      exact ih hL

/-- C5 (counterexample): buffer `a` (acute mark) then `o` (horn tone);
pressing the remove trigger `z` clears the horn on the later vowel and
leaves the acute mark on the earlier vowel — the opposite of the claimed
mark-before-tone priority. -/
theorem C5_counterexample :
    ((({ Engine.new with
          buf := [⟨keys.A, false, mark.ACUTE, tone.NONE⟩,
                  ⟨keys.O, false, mark.NONE, tone.HORN⟩] } : Engine).on_key
        keys.Z false false).1.buf =
      [⟨keys.A, false, mark.ACUTE, tone.NONE⟩,
       ⟨keys.O, false, mark.NONE, tone.NONE⟩]) ∧
    mark.ACUTE ≠ mark.NONE := by
  constructor
  · rfl
  · decide

/-- C5 (amended): the remove trigger scans the vowels from the most
recent backwards; at the first vowel that carries any diacritic it clears
that vowel's mark if present, otherwise that vowel's tone, and rebuilds
from that position — even when an earlier vowel still carries a mark. -/
theorem C5_remove_clears_most_recent_diacritic (e : Engine) (vs ws : List Nat)
    (j : Nat) (c : BChar)
    (hv : find_vowels e.buf = vs ++ j :: ws)
    (hc : e.buf.get? j = some c)
    (hws : ∀ i ∈ ws, ∀ d : BChar, e.buf.get? i = some d → d.mark = 0 ∧ d.tone = 0)
    (hd : 0 < c.mark ∨ 0 < c.tone) :
    e.handle_remove =
      (if 0 < c.mark then
        ({ e with buf := e.buf.set j { c with mark := 0 } },
          Engine.rebuild_from { e with buf := e.buf.set j { c with mark := 0 } } j)
      else
        ({ e with buf := e.buf.set j { c with tone := 0 } },
          Engine.rebuild_from { e with buf := e.buf.set j { c with tone := 0 } } j)) := by
  unfold Engine.handle_remove
  rw [hv]
  rw [if_neg (by simp)]
  rw [List.reverse_append, List.reverse_cons, List.append_assoc, List.singleton_append]
  rw [handle_remove_loop_skip e ws.reverse _ (fun i hi => hws i (List.mem_reverse.mp hi))]
  simp only [Engine.handle_remove_loop, hc, gt_iff_lt]
  by_cases hm : 0 < c.mark
  · rw [if_pos hm, if_pos hm]
  · have ht : 0 < c.tone := by
      rcases hd with h | h
      · exact absurd h hm
      · exact h
    rw [if_neg hm, if_pos ht, if_neg hm]

/-- C5 (witness): the amended statement at the counterexample buffer —
the later tone-only vowel loses its tone. -/
theorem C5_remove_witness :
    ({ Engine.new with
        buf := [⟨keys.A, false, mark.ACUTE, tone.NONE⟩,
                ⟨keys.O, false, mark.NONE, tone.HORN⟩] } : Engine).handle_remove =
      ({ Engine.new with
          buf := [⟨keys.A, false, mark.ACUTE, tone.NONE⟩,
                  ⟨keys.O, false, mark.NONE, tone.NONE⟩] },
        EResult.send 1 ['o']) := by
  have h := C5_remove_clears_most_recent_diacritic
    { Engine.new with
        buf := [⟨keys.A, false, mark.ACUTE, tone.NONE⟩,
                ⟨keys.O, false, mark.NONE, tone.HORN⟩] }
    [0] [] 1 ⟨keys.O, false, mark.NONE, tone.HORN⟩
    (by decide) rfl (by intro i hi; cases hi) (Or.inr (by decide))
  rw [h]
  decide

/-- A buffer without vowel letters has no vowel positions. -/
theorem find_vowels_eq_nil (b : List BChar)
    (h : ∀ c ∈ b, keys.is_vowel c.key = false) : find_vowels b = [] := by
  unfold find_vowels
  rw [List.filter_eq_nil_iff]
  intro i _hi
  cases hg : b.get? i with
  | none => simp
  | some c => simp [h c (List.get?_mem hg)]

/-- Method id other than 1 resolves to the Telex descriptor. -/
theorem input_get_ne_one {m : Nat} (h : m ≠ 1) : input_get m = Method.telex := by
  simp [input_get, h]

/-- A mark trigger on a vowel-free buffer: the mark handler does nothing,
and the same-key revert path only clears the memo. -/
theorem process_mark_nov (e : Engine) (k mrk : Nat) (caps : Bool)
    (hd : (input_get e.method).is_d k ((e.buf.getLast?).map BChar.key) = false)
    (ht : (input_get e.method).is_tone_for k
        ((e.buf.filter fun c => keys.is_vowel c.key).map BChar.key) = none)
    (hmk : (input_get e.method).is_mark k = some mrk)
    (hfv : find_vowels e.buf = []) :
    e.process k caps =
      ({ e with last_transform :=
          match e.last_transform with
          | some (lk, 1, v) => if lk == k then none else some (lk, 1, v)
          | lt => lt }, EResult.nores) := by
  have hrev : e.revert_mark k caps = ({ e with last_transform := none }, EResult.nores) := by
    unfold Engine.revert_mark
    show Engine.revert_mark_loop _ _ _ ((find_vowels e.buf).reverse) = _
    rw [hfv]
    rfl
  have hhandle : e.handle_mark_with_key k mrk = (e, EResult.nores) := by
    unfold Engine.handle_mark_with_key
    rw [hfv]
    rfl
  unfold Engine.process
  simp only [hd, ht, hmk, Bool.false_eq_true, if_false]
  rcases hlt : e.last_transform with _ | ⟨lk, t, v⟩
  · simp only [hhandle]
    rw [← hlt]
  · match t with
    | 0 =>
      simp only [hhandle]
      rw [← hlt]
    | 1 =>
      cases hbb : (lk == k) with
      | true => simp only [hbb, hrev, if_true]
      | false =>
        simp only [hbb, Bool.false_eq_true, if_false, hhandle]
        rw [← hlt]
    | (n + 2) =>
      simp only [hhandle]
      rw [← hlt]

/-- C9 (counterexample): with an empty buffer and a mark memo recorded
for `s`, pressing `s` does change the engine state — the revert path
clears `last_transform` — so the state is not left unchanged. -/
theorem C9_counterexample :
    (({ Engine.new with last_transform := some (keys.S, 1, mark.ACUTE) } : Engine).on_key
        keys.S false false).1 ≠
      { Engine.new with last_transform := some (keys.S, 1, mark.ACUTE) } ∧
    (({ Engine.new with last_transform := some (keys.S, 1, mark.ACUTE) } : Engine).on_key
        keys.S false false).2 = EResult.nores := by
  constructor
  · decide
  · rfl

/-- C9 (amended): pressing a mark-trigger key (Telex s/f/r/x/j, VNI 1–5)
on a buffer with no vowel returns None, appends nothing to the buffer,
and never records a new transform; `last_transform` is left unchanged
except when it held a mark with the same key, in which case it is
cleared. -/
theorem C9_mark_trigger_no_vowel (e : Engine) (k : Nat) (caps : Bool)
    (he : e.enabled = true)
    (hv : ∀ c ∈ e.buf, keys.is_vowel c.key = false)
    (hk : (e.method = 1 ∧ k ∈ [keys.N1, keys.N2, keys.N3, keys.N4, keys.N5]) ∨
          (e.method ≠ 1 ∧ k ∈ [keys.S, keys.F, keys.R, keys.X, keys.J])) :
    e.on_key k caps false =
      ({ e with last_transform :=
          match e.last_transform with
          | some (lk, 1, v) => if lk == k then none else some (lk, 1, v)
          | lt => lt }, EResult.nores) := by
  have hfv : find_vowels e.buf = [] := find_vowels_eq_nil e.buf hv
  rcases hk with ⟨hm, hk⟩ | ⟨hm, hk⟩
  · have hmeth : input_get e.method = Method.vni := by rw [hm]; rfl
    fin_cases hk
    · rw [show e.on_key keys.N1 caps false = e.process keys.N1 caps from by
        unfold Engine.on_key; rw [he]; rfl]
      exact process_mark_nov e keys.N1 mark.ACUTE caps
        (by rw [hmeth]; rfl) (by rw [hmeth]; rfl) (by rw [hmeth]; rfl) hfv
    · rw [show e.on_key keys.N2 caps false = e.process keys.N2 caps from by
        unfold Engine.on_key; rw [he]; rfl]
      exact process_mark_nov e keys.N2 mark.GRAVE caps
        (by rw [hmeth]; rfl) (by rw [hmeth]; rfl) (by rw [hmeth]; rfl) hfv
    · rw [show e.on_key keys.N3 caps false = e.process keys.N3 caps from by
        unfold Engine.on_key; rw [he]; rfl]
      exact process_mark_nov e keys.N3 mark.HOOK caps
        (by rw [hmeth]; rfl) (by rw [hmeth]; rfl) (by rw [hmeth]; rfl) hfv
    · rw [show e.on_key keys.N4 caps false = e.process keys.N4 caps from by
        unfold Engine.on_key; rw [he]; rfl]
      exact process_mark_nov e keys.N4 mark.TILDE caps
        (by rw [hmeth]; rfl) (by rw [hmeth]; rfl) (by rw [hmeth]; rfl) hfv
    · rw [show e.on_key keys.N5 caps false = e.process keys.N5 caps from by
        unfold Engine.on_key; rw [he]; rfl]
      exact process_mark_nov e keys.N5 mark.DOT caps
        (by rw [hmeth]; rfl) (by rw [hmeth]; rfl) (by rw [hmeth]; rfl) hfv
  · have hmeth : input_get e.method = Method.telex := input_get_ne_one hm
    fin_cases hk
    · rw [show e.on_key keys.S caps false = e.process keys.S caps from by
        unfold Engine.on_key; rw [he]; rfl]
      exact process_mark_nov e keys.S mark.ACUTE caps
        (by rw [hmeth]; rfl) (by rw [hmeth]; rfl) (by rw [hmeth]; rfl) hfv
    · rw [show e.on_key keys.F caps false = e.process keys.F caps from by
        unfold Engine.on_key; rw [he]; rfl]
      exact process_mark_nov e keys.F mark.GRAVE caps
        (by rw [hmeth]; rfl) (by rw [hmeth]; rfl) (by rw [hmeth]; rfl) hfv
    · rw [show e.on_key keys.R caps false = e.process keys.R caps from by
        unfold Engine.on_key; rw [he]; rfl]
      exact process_mark_nov e keys.R mark.HOOK caps
        (by rw [hmeth]; rfl) (by rw [hmeth]; rfl) (by rw [hmeth]; rfl) hfv
    · rw [show e.on_key keys.X caps false = e.process keys.X caps from by
        unfold Engine.on_key; rw [he]; rfl]
      exact process_mark_nov e keys.X mark.TILDE caps
        (by rw [hmeth]; rfl) (by rw [hmeth]; rfl) (by rw [hmeth]; rfl) hfv
    · rw [show e.on_key keys.J caps false = e.process keys.J caps from by
        unfold Engine.on_key; rw [he]; rfl]
      exact process_mark_nov e keys.J mark.DOT caps
        (by rw [hmeth]; rfl) (by rw [hmeth]; rfl) (by rw [hmeth]; rfl) hfv

/-- C9 (witness): the amended statement on an empty-buffer Telex engine
pressing `s` with no recorded transform — nothing changes and None is
returned. -/
theorem C9_mark_trigger_witness :
    Engine.new.on_key keys.S false false = (Engine.new, EResult.nores) := by
  have h := C9_mark_trigger_no_vowel Engine.new keys.S false rfl
    (by intro c hc; cases hc) (Or.inr ⟨by decide, by decide⟩)
  simpa using h

/-- C3: for a buffer whose vowel nucleus is exactly two vowels forming a
glide+vowel pair (oa, oe, uy, ua, ue), with neither vowel carrying a tone
modifier and no consonant after the last vowel, the mark position is the
2nd vowel under modern placement and the 1st under traditional placement,
and a mark trigger places the mark exactly there. -/
theorem C3_glide_pair_open_placement (e : Engine) (i j : Nat) (ci cj : BChar)
    (hv : find_vowels e.buf = [i, j])
    (hi : e.buf.get? i = some ci) (hj : e.buf.get? j = some cj)
    (hpair : (ci.key, cj.key) ∈
      [(keys.O, keys.A), (keys.O, keys.E), (keys.U, keys.Y),
       (keys.U, keys.A), (keys.U, keys.E)])
    (hti : ci.tone = 0) (htj : cj.tone = 0)
    (hf : e.has_final_consonant j = false) :
    e.find_mark_pos (find_vowels e.buf) = (if e.modern then j else i) ∧
    (∀ k mrk : Nat, e.handle_mark_with_key k mrk =
      (if e.modern then
        ({ e with buf := e.buf.set j { cj with mark := mrk },
                  last_transform := some (k, 1, mrk) },
          Engine.rebuild_from
            { e with buf := e.buf.set j { cj with mark := mrk },
                     last_transform := some (k, 1, mrk) } j)
      else
        ({ e with buf := e.buf.set i { ci with mark := mrk },
                  last_transform := some (k, 1, mrk) },
          Engine.rebuild_from
            { e with buf := e.buf.set i { ci with mark := mrk },
                     last_transform := some (k, 1, mrk) } i))) := by
  have hi' : e.buf[i]? = some ci := by simpa using hi
  have hj' : e.buf[j]? = some cj := by simpa using hj
  have hpos : e.find_mark_pos [i, j] = if e.modern then j else i := by
    simp only [List.mem_cons, List.not_mem_nil, or_false, Prod.mk.injEq] at hpair
    unfold Engine.find_mark_pos
    rcases hpair with ⟨h1, h2⟩ | ⟨h1, h2⟩ | ⟨h1, h2⟩ | ⟨h1, h2⟩ | ⟨h1, h2⟩ <;>
      simp [List.filterMap, hi', hj', h1, h2, hti, htj, hf,
        Engine.is_glide_vowel_pair, keys.A, keys.E, keys.I, keys.O, keys.U,
        keys.Y]
  refine ⟨by rw [hv]; exact hpos, ?_⟩
  intro k mrk
  unfold Engine.handle_mark_with_key
  rw [hv]
  rw [if_neg (by simp)]
  rw [hpos]
  cases hm : e.modern with
  | true =>
    simp only [if_true]
    rw [hj]
  | false =>
    simp only [Bool.false_eq_true, if_false]
    rw [hi]

/-- C3 (witness): the buffer `h`,`o`,`a` under modern placement marks the
`a` (position 2); the handler sets the mark there. -/
theorem C3_glide_pair_witness :
    ({ Engine.new with
        buf := [BChar.new keys.H false, BChar.new keys.O false,
                BChar.new keys.A false] } : Engine).find_mark_pos
      (find_vowels [BChar.new keys.H false, BChar.new keys.O false,
                    BChar.new keys.A false]) = 2 := by
  have h := C3_glide_pair_open_placement
    { Engine.new with
        buf := [BChar.new keys.H false, BChar.new keys.O false,
                BChar.new keys.A false] }
    1 2 (BChar.new keys.O false) (BChar.new keys.A false)
    (by decide) rfl rfl (by decide) rfl rfl rfl
  simpa using h.1

/-- C4: for every Telex mark trigger t (s, f, r, x, j) and every vowel
letter v, typing v, t, t leaves the host text as the two literal
characters v then t: the second press reverts the mark set by the first
and appends the literal trigger character. -/
theorem C4_revert_round_trip (t v : Nat)
    (ht : t ∈ [keys.S, keys.F, keys.R, keys.X, keys.J])
    (hv : v ∈ [keys.A, keys.E, keys.I, keys.O, keys.U, keys.Y]) :
    (type_word Engine.new [(v, false), (t, false), (t, false)]).2 =
      (key_to_char v false).toList ++ (key_to_char t false).toList := by
  fin_cases ht <;> fin_cases hv <;> decide

/-- C4 (witness): typing a, s, s yields the host text `as`. -/
theorem C4_revert_witness :
    (type_word Engine.new [(keys.A, false), (keys.S, false), (keys.S, false)]).2 =
      ['a', 's'] :=
  C4_revert_round_trip keys.S keys.A (by decide) (by decide)

/-- C6 (counterexample): the buffer `b`,`a`,`d` contains a vowel and has
the valid initial `b`, and its initial/first-vowel pair is none of the
listed spelling violations, yet validation rejects it (invalid final
`d`) — so "rejects exactly when a listed pair occurs" fails. -/
theorem C6_counterexample :
    validate [keys.B, keys.A, keys.D] = ValidationResult.InvalidFinal ∧
    rule_has_vowel [keys.B, keys.A, keys.D] (parse [keys.B, keys.A, keys.D]) = none ∧
    rule_valid_initial [keys.B, keys.A, keys.D] (parse [keys.B, keys.A, keys.D]) = none ∧
    rule_spelling [keys.B, keys.A, keys.D] (parse [keys.B, keys.A, keys.D]) = none := by
  refine ⟨?_, rfl, rfl, rfl⟩
  rfl

/-- The final-cluster rule can only report InvalidFinal. -/
theorem rule_valid_final_result (ks : List Nat) (s : Syllable) (r : ValidationResult)
    (hr : rule_valid_final ks s = some r) : r = ValidationResult.InvalidFinal := by
  unfold rule_valid_final at hr
  by_cases hF : s.final_c.isEmpty = true
  · rw [if_pos hF] at hr
    simp at hr
  · rw [if_neg hF] at hr
    dsimp only at hr
    split at hr
    · simp at hr
    · simpa using hr.symm

/-- C6 (amended): for a buffer with a vowel, a non-empty valid initial
cluster, and all characters parsed into the syllable structure,
validation rejects with InvalidSpelling exactly when the initial cluster
together with the glide-or-first-nucleus vowel is one of: c+e/i/y,
k+a/o/u, g+e, ng+e/i, gh+a/o/u, ngh+a/o/u.  (Validation can additionally
reject other buffers for an unparsed remainder or a bad final cluster.) -/
theorem C6_spelling_rule_exact (ks : List Nat)
    (h1 : rule_has_vowel ks (parse ks) = none)
    (hne : (parse ks).initial ≠ [])
    (h2 : rule_valid_initial ks (parse ks) = none)
    (h3 : rule_all_chars_parsed ks (parse ks) = none) :
    validate ks = ValidationResult.InvalidSpelling ↔
      (let ini := keys_at ks (parse ks).initial
       let fv := ks.getD (((parse ks).glide).getD ((parse ks).vowel.getD 0 0)) 99
       (ini = [keys.C] ∧ fv ∈ [keys.E, keys.I, keys.Y]) ∨
       (ini = [keys.K] ∧ fv ∈ [keys.A, keys.O, keys.U]) ∨
       (ini = [keys.G] ∧ fv = keys.E) ∨
       (ini = [keys.N, keys.G] ∧ fv ∈ [keys.E, keys.I]) ∨
       (ini = [keys.G, keys.H] ∧ fv ∈ [keys.A, keys.O, keys.U]) ∨
       (ini = [keys.N, keys.G, keys.H] ∧ fv ∈ [keys.A, keys.O, keys.U])) := by
  have hks : ks ≠ [] := by
    intro h
    rw [h] at h1
    exact absurd h1 (by decide)
  have hvow : (parse ks).vowel.isEmpty = false := by
    unfold rule_has_vowel at h1
    unfold Syllable.is_empty at h1
    cases h : (parse ks).vowel.isEmpty with
    | false => rfl
    | true => rw [h] at h1; exact absurd h1 (by simp)
  have hini : (parse ks).initial.isEmpty = false := by
    cases h : (parse ks).initial with
    | nil => exact absurd h hne
    | cons a l => simp [h]
  have hstep : validate ks =
      (match rule_spelling ks (parse ks) with
        | some r => r
        | none =>
          match rule_valid_final ks (parse ks) with
          | some r => r
          | none => ValidationResult.Valid) := by
    unfold validate
    rw [if_neg hks]
    simp only [h1, h2, h3]
  have hsp : rule_spelling ks (parse ks) =
      (if SPELLING_RULES.any fun r =>
          keys_at ks (parse ks).initial == r.1 &&
          r.2.contains
            (ks.getD (((parse ks).glide).getD ((parse ks).vowel.getD 0 0)) 99)
        then some ValidationResult.InvalidSpelling else none) := by
    unfold rule_spelling
    rw [hini, hvow]
    rfl
  rw [hstep, hsp]
  cases hb : (SPELLING_RULES.any fun r =>
      keys_at ks (parse ks).initial == r.1 &&
      r.2.contains
        (ks.getD (((parse ks).glide).getD ((parse ks).vowel.getD 0 0)) 99)) with
  | true =>
    rw [if_pos rfl]
    constructor
    · intro _
      have hc := hb
      simp only [SPELLING_RULES, List.any_cons, List.any_nil, Bool.or_eq_true,
        Bool.and_eq_true, beq_iff_eq, List.contains, List.elem_iff,
        Bool.or_false] at hc
      simpa using hc
    · intro _
      rfl
  | false =>
    rw [if_neg (by simp)]
    constructor
    · intro hval
      exfalso
      revert hval
      cases hr : rule_valid_final ks (parse ks) with
      | none => simp
      | some r =>
        have := rule_valid_final_result ks (parse ks) r hr
        rw [this]
        simp
    · intro hcond
      exfalso
      have hany : (SPELLING_RULES.any fun r =>
          keys_at ks (parse ks).initial == r.1 &&
          r.2.contains
            (ks.getD (((parse ks).glide).getD ((parse ks).vowel.getD 0 0)) 99)) =
          true := by
        simp only [SPELLING_RULES, List.any_cons, List.any_nil, Bool.or_eq_true,
          Bool.and_eq_true, beq_iff_eq, List.contains, List.elem_iff,
          Bool.or_false]
        simpa using hcond
      rw [hany] at hb
      cases hb

/-- C6 (witness): the amended statement at the buffer `c`,`e` — a listed
pair, and validation indeed reports InvalidSpelling. -/
theorem C6_spelling_witness :
    validate [keys.C, keys.E] = ValidationResult.InvalidSpelling :=
  (C6_spelling_rule_exact [keys.C, keys.E] rfl (by decide) rfl rfl).mpr
    (by decide)

/-- C7: whenever lookup matches the typed buffer to a shortcut with case
mode MatchCase, the replacement emitted by try_match is the replacement
upper-cased if every typed character is upper-case, else with its first
character capitalised if the first typed character is upper-case, else
verbatim — followed by the literal boundary character exactly for
word-boundary shortcuts. -/
theorem C7_match_case_output (t : ShortcutTable) (buffer trig : List Char)
    (s : Shortcut) (kc : Option Char) (wb : Bool) (m : ShortcutMatch)
    (hl : t.lookup buffer = some (trig, s))
    (hc : s.case_mode = CaseMode.MatchCase)
    (hm : t.try_match buffer kc wb = some m) :
    m.output =
      ((if buffer.all chars.is_upper then upper_str s.replacement
        else if ((buffer.head?).map chars.is_upper).getD false then
          (match s.replacement with
           | [] => []
           | c :: cs => chars.vn_upper c :: cs)
        else s.replacement) ++
       (if s.condition = TriggerCondition.OnWordBoundary then kc.toList else [])) := by
  obtain ⟨strig, srepl, scond, smode, sen⟩ := s
  dsimp only at hc ⊢
  subst hc
  unfold ShortcutTable.try_match at hm
  rw [hl] at hm
  dsimp only at hm
  cases scond with
  | Immediate =>
    dsimp only at hm ⊢
    cases hm
    simp [ShortcutTable.apply_case]
  | OnWordBoundary =>
    dsimp only at hm ⊢
    cases hwb : wb with
    | false =>
      rw [hwb] at hm
      simp at hm
    | true =>
      rw [hwb, if_pos rfl] at hm
      cases hm
      simp [ShortcutTable.apply_case]

/-- C7 (witness): default table, typed trigger `Vn` on a space boundary —
the replacement comes out with its first character capitalised, followed
by the space. -/
theorem C7_match_case_witness :
    (⟨2, "Việt Nam ".toList, true⟩ : ShortcutMatch).output =
      ((if (['V', 'n'] : List Char).all chars.is_upper then
          upper_str "Việt Nam".toList
        else if (((['V', 'n'] : List Char).head?).map chars.is_upper).getD false
          then
          (match "Việt Nam".toList with
           | [] => []
           | c :: cs => chars.vn_upper c :: cs)
        else "Việt Nam".toList) ++
       (if TriggerCondition.OnWordBoundary = TriggerCondition.OnWordBoundary
        then (some ' ').toList else [])) :=
  C7_match_case_output ShortcutTable.with_defaults ['V', 'n'] "vn".toList
    (Shortcut.new "vn".toList "Việt Nam".toList) (some ' ') true
    ⟨2, "Việt Nam ".toList, true⟩ (by decide) rfl (by decide)

/-- Host-side table operations (`add_shortcut` / `remove_shortcut` /
`clear_shortcuts` of §6); added shortcuts are built like the `Shortcut`
constructors, with the trigger stored lower-cased. -/
inductive TableOp
  | add (trigger replacement : List Char) (cond : TriggerCondition)
      (mode : CaseMode) (enabled : Bool)
  | remove (trigger : List Char)
  | clear
deriving Repr, DecidableEq

/-- Apply one operation to a table. -/
def TableOp.apply (t : ShortcutTable) : TableOp → ShortcutTable
  | .add trig repl cond mode en =>
    t.add { trigger := lower_str trig, replacement := repl, condition := cond,
            case_mode := mode, enabled := en }
  | .remove trig => t.remove trig
  | .clear => t.clear

/-- Run a sequence of operations. -/
def run_ops (t : ShortcutTable) (ops : List TableOp) : ShortcutTable :=
  ops.foldl TableOp.apply t

/-- Inserting the sorted way keeps the permutation. -/
theorem insert_desc_perm (x : List Char) (l : List (List Char)) :
    (insert_desc x l).Perm (x :: l) := by
  induction l with
  | nil => exact List.Perm.refl _
  | cons y ys ih =>
    unfold insert_desc
    by_cases hc : x.length ≤ y.length
    · rw [if_pos hc]
      exact (ih.cons y).trans (List.Perm.swap x y ys)
    · rw [if_neg hc]

/-- The descending sort permutes its input. -/
theorem sort_desc_perm (l : List (List Char)) : (sort_desc l).Perm l := by
  induction l with
  | nil => exact List.Perm.refl _
  | cons x xs ih => exact (insert_desc_perm x (sort_desc xs)).trans (ih.cons x)

/-- Membership after a sorted insert. -/
theorem mem_insert_desc {a x : List Char} {l : List (List Char)}
    (h : a ∈ insert_desc x l) : a = x ∨ a ∈ l := by
  have := (insert_desc_perm x l).mem_iff.mp h
  simpa using this

/-- Sorted insert keeps non-increasing length order. -/
theorem sorted_insert_desc (x : List Char) (l : List (List Char))
    (h : List.Pairwise (fun a b : List Char => b.length ≤ a.length) l) :
    List.Pairwise (fun a b : List Char => b.length ≤ a.length)
      (insert_desc x l) := by
  induction l with
  | nil => simp [insert_desc]
  | cons y ys ih =>
    unfold insert_desc
    rcases List.pairwise_cons.mp h with ⟨hy, hys⟩
    by_cases hc : x.length ≤ y.length
    · rw [if_pos hc]
      refine List.pairwise_cons.mpr ⟨?_, ih hys⟩
      intro b hb
      rcases mem_insert_desc hb with rfl | hb'
      · exact hc
      · exact hy b hb'
    · rw [if_neg hc]
      refine List.pairwise_cons.mpr ⟨?_, h⟩
      intro b hb
      rcases List.mem_cons.mp hb with rfl | hb'
      · omega
      · exact le_trans (hy b hb') (by omega)

/-- The descending sort is sorted by non-increasing length. -/
theorem sorted_sort_desc (l : List (List Char)) :
    List.Pairwise (fun a b : List Char => b.length ≤ a.length) (sort_desc l) := by
  induction l with
  | nil => simp [sort_desc]
  | cons x xs ih => exact sorted_insert_desc x (sort_desc xs) ih

/-- Replacement-insert does not change the key set when the key is
present, and appends it when absent — so key uniqueness is preserved. -/
theorem map_insert_keys_nodup (m : List (List Char × Shortcut)) (k : List Char)
    (v : Shortcut) (h : (m.map Prod.fst).Nodup) :
    ((map_insert m k v).map Prod.fst).Nodup := by
  unfold map_insert
  by_cases hc : (m.any fun p => p.1 == k) = true
  · rw [if_pos hc]
    have hkeys : ((m.map fun p => if p.1 == k then (k, v) else p).map Prod.fst) =
        m.map Prod.fst := by
      rw [List.map_map]
      apply List.map_congr_left
      intro p _hp
      by_cases hpk : (p.1 == k) = true
      · simp only [Function.comp, hpk, if_true]
        exact (beq_iff_eq.mp hpk).symm
      · simp only [Function.comp, hpk, Bool.false_eq_true, if_false]
    rw [hkeys]
    exact h
  · rw [if_neg hc]
    rw [List.map_append]
    rw [List.nodup_append]
    refine ⟨h, List.nodup_singleton k, ?_⟩
    intro a ha hb
    have hak : a = k := by simpa using hb
    subst hak
    rcases List.mem_map.mp ha with ⟨p, hp, hfst⟩
    apply hc
    rw [List.any_eq_true]
    exact ⟨p, hp, by rw [hfst]; exact beq_self_eq_true a⟩

/-- Unique keys make the association read return the stored entry. -/
theorem map_get_of_mem (m : List (List Char × Shortcut)) (k : List Char)
    (s : Shortcut) (hN : (m.map Prod.fst).Nodup) (hmem : (k, s) ∈ m) :
    map_get m k = some s := by
  induction m with
  | nil => cases hmem
  | cons p m ih =>
    obtain ⟨pk, ps⟩ := p
    simp only [List.map_cons, List.nodup_cons] at hN
    unfold map_get
    rw [List.find?_cons]
    rcases List.mem_cons.mp hmem with heq | hmem'
    · obtain ⟨hk, hs⟩ := Prod.mk.injEq .. ▸ heq.symm
      subst hk
      subst hs
      simp
    · cases hpk : ((pk, ps).1 == k) with
      | true =>
        exfalso
        have : pk = k := beq_iff_eq.mp hpk
        subst this
        exact hN.1 (List.mem_map.mpr ⟨(pk, s), hmem', rfl⟩)
      | false => exact ih hN.2 hmem'

/-- The longest-first scan returns the unique matching enabled entry. -/
theorem findSome_lookup (sc : List (List Char × Shortcut)) (key : List Char)
    (s : Shortcut) (L : List (List Char)) (hL : key ∈ L)
    (hget : map_get sc key = some s) (hen : s.enabled = true) :
    (L.findSome? fun trigger =>
      if key == trigger then
        match map_get sc trigger with
        | some s => if s.enabled then some (trigger, s) else none
        | none => none
      else none) = some (key, s) := by
  induction L with
  | nil => cases hL
  | cons a L ih =>
    rw [List.findSome?_cons]
    cases hak : (key == a) with
    | true =>
      have ha : key = a := beq_iff_eq.mp hak
      subst ha
      simp [hget, hen]
    | false =>
      simp only [hak, Bool.false_eq_true, if_false]
      rcases List.mem_cons.mp hL with rfl | h'
      · rw [beq_self_eq_true] at hak
        cases hak
      · exact ih h'

/-- One operation preserves the table invariant: the sorted trigger list
is the descending sort of the key set, and keys are unique. -/
theorem table_op_inv (t : ShortcutTable) (op : TableOp)
    (h : t.sorted_triggers = sort_desc (t.shortcuts.map Prod.fst) ∧
      (t.shortcuts.map Prod.fst).Nodup) :
    ((op.apply t).sorted_triggers =
        sort_desc ((op.apply t).shortcuts.map Prod.fst) ∧
      ((op.apply t).shortcuts.map Prod.fst).Nodup) := by
  cases op with
  | add trig repl cond mode en =>
    exact ⟨rfl, map_insert_keys_nodup t.shortcuts (lower_str trig) _ h.2⟩
  | remove trig =>
    dsimp only [TableOp.apply]
    unfold ShortcutTable.remove
    by_cases hp : (map_get t.shortcuts (lower_str trig)).isSome = true
    · rw [if_pos hp]
      refine ⟨rfl, ?_⟩
      unfold map_remove
      have : ((t.shortcuts.filter fun p => !(p.1 == lower_str trig)).map
          Prod.fst).Sublist (t.shortcuts.map Prod.fst) :=
        (List.filter_sublist _).map Prod.fst
      exact h.2.sublist this
    · rw [if_neg hp]
      exact h
  | clear => exact ⟨rfl, List.nodup_nil⟩

/-- The invariant holds after any run from the empty table. -/
theorem run_ops_inv (ops : List TableOp) (t : ShortcutTable)
    (h : t.sorted_triggers = sort_desc (t.shortcuts.map Prod.fst) ∧
      (t.shortcuts.map Prod.fst).Nodup) :
    ((run_ops t ops).sorted_triggers =
        sort_desc ((run_ops t ops).shortcuts.map Prod.fst) ∧
      ((run_ops t ops).shortcuts.map Prod.fst).Nodup) := by
  induction ops generalizing t with
  | nil => exact h
  | cons op ops ih => exact ih (op.apply t) (table_op_inv t op h)

/-- C10: after any sequence of add/remove/clear operations from the empty
table, `sorted_triggers` is a permutation of the map's key set ordered by
non-increasing trigger length, and lookup returns the enabled shortcut
stored under the lower-cased buffer text whenever one exists. -/
theorem C10_sorted_triggers_invariant (ops : List TableOp) (buffer : List Char) :
    ((run_ops ShortcutTable.new ops).sorted_triggers.Perm
        ((run_ops ShortcutTable.new ops).shortcuts.map Prod.fst) ∧
      List.Pairwise (fun a b : List Char => b.length ≤ a.length)
        (run_ops ShortcutTable.new ops).sorted_triggers) ∧
    (∀ s : Shortcut,
      (lower_str buffer, s) ∈ (run_ops ShortcutTable.new ops).shortcuts →
      s.enabled = true →
      (run_ops ShortcutTable.new ops).lookup buffer =
        some (lower_str buffer, s)) := by
  obtain ⟨hInv, hN⟩ := run_ops_inv ops ShortcutTable.new ⟨rfl, List.nodup_nil⟩
  refine ⟨⟨?_, ?_⟩, ?_⟩
  · rw [hInv]
    exact sort_desc_perm _
  · rw [hInv]
    exact sorted_sort_desc _
  · intro s hmem hen
    have hget : map_get (run_ops ShortcutTable.new ops).shortcuts
        (lower_str buffer) = some s := map_get_of_mem _ _ _ hN hmem
    have hkey : lower_str buffer ∈ (run_ops ShortcutTable.new ops).sorted_triggers := by
      rw [hInv]
      exact (sort_desc_perm _).mem_iff.mpr
        (List.mem_map.mpr ⟨(lower_str buffer, s), hmem, rfl⟩)
    unfold ShortcutTable.lookup
    exact findSome_lookup _ _ _ _ hkey hget hen

/-- C10 (witness): one add of `vn → Việt Nam`, then looking up `VN`. -/
theorem C10_invariant_witness :
    (run_ops ShortcutTable.new
        [TableOp.add "vn".toList "Việt Nam".toList TriggerCondition.OnWordBoundary
          CaseMode.MatchCase true]).lookup "VN".toList =
      some (lower_str "VN".toList,
        { trigger := lower_str "vn".toList, replacement := "Việt Nam".toList,
          condition := TriggerCondition.OnWordBoundary,
          case_mode := CaseMode.MatchCase, enabled := true }) :=
  (C10_sorted_triggers_invariant
      [TableOp.add "vn".toList "Việt Nam".toList TriggerCondition.OnWordBoundary
        CaseMode.MatchCase true] "VN".toList).2
    { trigger := lower_str "vn".toList, replacement := "Việt Nam".toList,
      condition := TriggerCondition.OnWordBoundary,
      case_mode := CaseMode.MatchCase, enabled := true }
    (by decide) rfl

end Gonhanh
